import Mathlib

/-!
Verification of the DisToPia API backend (`src/distopia_api/main.py`)
against its natural-language specification.

The relevant handlers are shallowly embedded: the PostgreSQL tables
`dtp_data` and `conversation` become Lean lists of rows, the upload
directory becomes an association list from paths to byte lists, Python
string helpers (`re.sub`, `os.path.join`, `os.path.basename`,
`os.path.splitext`, `str.split`, `str.lower`) are translated
character-by-character, and the external services (JWT decoding, the
GPT chat-completion call) are abstracted as function parameters since
their internals live outside this repository.
-/

namespace DisToPia

/-! ## `dtp_data` rows and the CRUD handlers (`main.py`) -/

/-- A row of the `dtp_data` table created by `/create-table`:
`id SERIAL PRIMARY KEY, name TEXT NOT NULL, description TEXT`. -/
structure DtpRow where
  id : Nat
  name : String
  description : String
deriving DecidableEq, Repr

/-- `add_data` (`POST /add-data`, main.py:360-371): executes
`INSERT INTO dtp_data (name, description) VALUES (%s, %s)` and returns
the f-string message.  The SERIAL id assigned by the database is passed
in as `nextId`. -/
def add_data (db : List DtpRow) (nextId : Nat) (name description : String) :
    List DtpRow × String :=
  (db ++ [⟨nextId, name, description⟩], "데이터 추가 성공 (name=" ++ name ++ ")")

/-- `delete_data` (`DELETE /delete-data/{data_id}`, main.py:399-410):
executes `DELETE FROM dtp_data WHERE id = %s` unconditionally and
returns the f-string success message. -/
def delete_data (db : List DtpRow) (data_id : Nat) : List DtpRow × String :=
  (db.filter (fun r => r.id != data_id),
   "✅ 데이터 삭제 완료! (id=" ++ toString data_id ++ ")")

/-! ## Filename sanitisation (`secure_filename`, main.py:211-212) -/

/-- The allow-list of `re.sub(r'[^A-Za-z0-9_.-]', '', filename)`:
ASCII letters, digits, underscore, dot, hyphen. -/
def isAllowedChar (c : Char) : Bool :=
  ('A' ≤ c && c ≤ 'Z') || ('a' ≤ c && c ≤ 'z') || ('0' ≤ c && c ≤ '9') ||
    c == '_' || c == '.' || c == '-'

/-- `secure_filename` (main.py:211-212): deletes every character outside
the allow-list. -/
def secure_filename (filename : String) : String :=
  String.mk (filename.data.filter isAllowedChar)

/-! ## Conversation cache and the chat endpoint (main.py:317-347, 460-472) -/

/-- A row of the `conversation` table:
`question TEXT NOT NULL, answer TEXT NOT NULL, created_at TIMESTAMP NOT NULL`.
`created_at` is modelled as seconds since the epoch. -/
structure ConvRow where
  question : String
  answer : String
  created_at : Nat
deriving DecidableEq, Repr

/-- One step of scanning for the row with maximal `created_at` (the effect
of `ORDER BY created_at DESC LIMIT 1`; on equal timestamps PostgreSQL's
order is unspecified, here the earlier row is kept). -/
def laterRow (acc : Option ConvRow) (r : ConvRow) : Option ConvRow :=
  match acc with
  | none => some r
  | some b => if b.created_at < r.created_at then some r else acc

/-- `get_cached_conversation` (main.py:317-331): executes
`SELECT answer FROM conversation WHERE question = %s
 ORDER BY created_at DESC LIMIT 1`
and returns the answer of the most recent matching row, or `none`. -/
def get_cached_conversation (db : List ConvRow) (question : String) : Option String :=
  ((db.filter (fun r => r.question == question)).foldl laterRow none).map
    (fun r => r.answer)

/-- `save_conversation` (main.py:333-347): executes
`INSERT INTO conversation (question, answer, created_at) VALUES (%s, %s, %s)`
with `created_at = datetime.utcnow()`, passed in as `now`. -/
def save_conversation (db : List ConvRow) (question answer : String) (now : Nat) :
    List ConvRow :=
  db ++ [⟨question, answer, now⟩]

/-- The fixed string returned by `get_gpt_response` when the
`openai.ChatCompletion.create` call raises (main.py:155). -/
def gptErrorMessage : String := "GPT-4 모델 호출 중 오류가 발생했습니다."

/-- `get_gpt_response` (main.py:143-155): calls the GPT-4 chat completion
(abstracted as `llm`, which either returns the answer text or raises) and
on any exception returns the fixed error string instead of propagating. -/
def get_gpt_response (llm : String → Except String String) (query : String) : String :=
  match llm query with
  | Except.ok answer => answer
  | Except.error _ => gptErrorMessage

/-- The observable outcome of one `POST /chat` request. -/
structure ChatResult where
  response : String
  db : List ConvRow
  llmCalled : Bool
deriving DecidableEq, Repr

/-- `chat` (main.py:464-472): `if cached_answer:` — a cached answer is used
only when it is truthy in Python, i.e. a non-empty string; otherwise the
GPT call is made and the `(query, answer)` pair is persisted. -/
def chat (db : List ConvRow) (query : String) (llm : String → Except String String)
    (now : Nat) : ChatResult :=
  match get_cached_conversation db query with
  | some cached_answer =>
    if cached_answer != "" then ⟨cached_answer, db, false⟩
    else
      let answer := get_gpt_response llm query
      ⟨answer, save_conversation db query answer now, true⟩
  | none =>
    let answer := get_gpt_response llm query
    ⟨answer, save_conversation db query answer now, true⟩

/-! ## Authentication (main.py:98-136) -/

/-- `fake_users_db` (main.py:104-106): the in-memory user table, keyed by
username, holding each user's password. -/
def fake_users_db : List (String × String) := [("johndoe", "secret")]

/-- The payload encoded into the JWT by `create_access_token`
(main.py:108-112): the claims `sub` and `exp` (seconds since the epoch).
Signing itself is delegated to the `jwt` library and is outside this
repository. -/
structure AccessToken where
  sub : String
  exp : Nat
deriving DecidableEq, Repr

/-- `create_access_token` (main.py:108-112): sets
`exp = datetime.utcnow() + expires_delta` and signs `{sub, exp}`. -/
def create_access_token (sub : String) (now expires_delta : Nat) : AccessToken :=
  ⟨sub, now + expires_delta⟩

/-- `login_for_access_token` (`POST /login-for-access-token`,
main.py:130-136): if the username is in `fake_users_db` and the stored
password equals the presented one, return the access token (default expiry
`timedelta(hours=1)` = 3600 s) with token type "bearer"; otherwise raise
`HTTPException(status_code=401)`. -/
def login_for_access_token (username password : String) (now : Nat) :
    Except Nat (AccessToken × String) :=
  match fake_users_db.lookup username with
  | some pw =>
    if pw = password then Except.ok (create_access_token username now 3600, "bearer")
    else Except.error 401
  | none => Except.error 401

/-- The result of `jwt.decode`: a payload in which `payload.get("sub")` may
be absent.  Decoding/validation is the `jwt` library's job and is
abstracted as a function parameter. -/
structure JwtPayload where
  sub : Option String
deriving DecidableEq, Repr

/-- One pass of Python's `str.split()` with no separator: whitespace runs
separate the pieces and empty pieces are dropped; `cur` accumulates the
current piece in reverse. -/
def splitWsAux : List Char → List Char → List String
  | [], cur => if cur.isEmpty then [] else [String.mk cur.reverse]
  | c :: rest, cur =>
    if c.isWhitespace then
      if cur.isEmpty then splitWsAux rest []
      else String.mk cur.reverse :: splitWsAux rest []
    else splitWsAux rest (c :: cur)

/-- Python's `str.split()` with no separator. -/
def splitWs (s : String) : List String := splitWsAux s.data []

/-- Python's `str.lower()` (ASCII case folding suffices for this use). -/
def lowerAscii (s : String) : String := String.mk (s.data.map Char.toLower)

/-- `optional_verify_token` (main.py:114-128): absent (or Python-falsy,
i.e. empty) header → identity "anonymous"; otherwise split the header,
require the "bearer" scheme, decode, and require a `sub` claim; every
failure on that path raises `HTTPException(status_code=401)` (the inner
exceptions are re-raised as 401 "Invalid token" by the blanket
`except Exception`). -/
def optional_verify_token (decode : String → Option JwtPayload)
    (authorization : Option String) : Except Nat String :=
  match authorization with
  | some a =>
    if a = "" then Except.ok "anonymous"
    else
      match splitWs a with
      | [scheme, tok] =>
        if lowerAscii scheme ≠ "bearer" then Except.error 401
        else
          match decode tok with
          | none => Except.error 401
          | some payload =>
            match payload.sub with
            | none => Except.error 401
            | some username => Except.ok username
      | _ => Except.error 401
  | none => Except.ok "anonymous"

/-- The ways a presented token fails to decode to an identity: a header
that does not split into exactly a scheme and a token (malformed), a
non-"bearer" scheme, a failing `jwt.decode` (bad signature, expired,
malformed), or a payload without a `sub` claim. -/
def decodeFailure (decode : String → Option JwtPayload) (a : String) : Prop :=
  (∀ s t, splitWs a ≠ [s, t]) ∨
    (∃ s t, splitWs a = [s, t] ∧
      (lowerAscii s ≠ "bearer" ∨ decode t = none ∨ decode t = some ⟨none⟩))

/-! ## File storage (main.py:92, 415-455) -/

/-- File contents as byte lists. -/
abbrev FileContent := List Nat

/-- The upload directory modelled as an association list from paths to
byte contents; a write prepends a binding, shadowing any older one —
`open(path, "wb")` truncates. -/
abbrev FileSystem := List (String × FileContent)

/-- Read the bytes stored at a path. -/
def fsLookup : FileSystem → String → Option FileContent
  | [], _ => none
  | (q, c) :: rest, p => if q = p then some c else fsLookup rest p

/-- `open(path, "wb")` + `shutil.copyfileobj`. -/
def fsWrite (fs : FileSystem) (p : String) (c : FileContent) : FileSystem :=
  (p, c) :: fs

/-- `os.path.exists(path)`. -/
def fsExists (fs : FileSystem) (p : String) : Bool :=
  (fsLookup fs p).isSome

/-- `UPLOAD_DIR` (main.py:92). -/
def UPLOAD_DIR : String := "uploads"

/-- Whether a POSIX path is absolute (`os.path.join` then discards the
components before it). -/
def isAbsolute (p : String) : Bool :=
  match p.data with
  | [] => false
  | c :: _ => c == '/'

/-- `os.path.join(a, b)` for the two-component POSIX cases the handlers
use. -/
def joinPath (a b : String) : String :=
  if isAbsolute b then b else a ++ "/" ++ b

/-- The scan of `os.path.basename`: everything after the last '/' —
the accumulator holds the piece read since the last separator. -/
def basenameAux : List Char → List Char → List Char
  | [], acc => acc
  | c :: rest, acc =>
    if c == '/' then basenameAux rest [] else basenameAux rest (acc ++ [c])

/-- `os.path.basename(p)`. -/
def basename (p : String) : String := String.mk (basenameAux p.data [])

/-- `str.rfind(ch)`: index of the last occurrence, `-1` if absent. -/
def rfindChar (l : List Char) (c : Char) : Int :=
  (List.range l.length).foldl
    (fun acc i => if l.getD i ' ' == c then (i : Int) else acc) (-1)

/-- The split position of `os.path.splitext` (genericpath._splitext): the
index of the last dot, provided it comes after the last path separator and
some character of the basename strictly before it is not a dot (so
leading-dot names like ".bashrc" keep no extension). -/
def splitextIdx (p : String) : Option Nat :=
  let l := p.data
  let sep := rfindChar l '/'
  let dot := rfindChar l '.'
  if decide (sep < dot) &&
      (List.range l.length).any
        (fun i => decide (sep < (i : Int)) && decide ((i : Int) < dot) &&
          (l.getD i '.' != '.')) then
    some dot.toNat
  else none

/-- `os.path.splitext(p)`: `(root, extension)`. -/
def splitext (p : String) : String × String :=
  match splitextIdx p with
  | some d => (String.mk (p.data.take d), String.mk (p.data.drop d))
  | none => (p, "")

/-- Digit-by-digit decimal rendering, structurally recursive on a fuel
argument (`n + 1` units always suffice since each step divides by 10). -/
def natReprAux : Nat → Nat → List Char → List Char
  | 0, _, acc => acc
  | fuel + 1, n, acc =>
    if n < 10 then Nat.digitChar n :: acc
    else natReprAux fuel (n / 10) (Nat.digitChar (n % 10) :: acc)

/-- Decimal rendering of a natural number — Python's
`f"{int(time.time())}"`. -/
def natRepr (n : Nat) : String := String.mk (natReprAux (n + 1) n [])

/-- `upload_file` (`POST /upload/`, main.py:415-437), file-storage part:
join the client-supplied filename (NOT sanitised) under `uploads`; if that
path exists, suffix `_{int(time.time())}` between root and extension of
the filename; write the stream; return `os.path.basename(file_path)`.
The subsequent content analysis and the `dtp_data` INSERT touch neither
the upload directory nor the returned filename and are not modelled. -/
def upload_file (fs : FileSystem) (filename : String) (content : FileContent)
    (now : Nat) : FileSystem × String :=
  let file_path := joinPath UPLOAD_DIR filename
  let final_path :=
    if fsExists fs file_path then
      joinPath UPLOAD_DIR
        ((splitext filename).1 ++ "_" ++ natRepr now ++ (splitext filename).2)
    else file_path
  (fsWrite fs final_path content, basename final_path)

/-- `download_file` (`GET /download/{filename}`, main.py:439-445): read
`uploads/<secure_filename(filename)>` and stream it back; 404 when the
path does not exist. -/
def download_file (fs : FileSystem) (filename : String) : Except Nat FileContent :=
  match fsLookup fs (joinPath UPLOAD_DIR (secure_filename filename)) with
  | some c => Except.ok c
  | none => Except.error 404

end DisToPia

namespace DisToPia

/-! ## Theorems for the CRUD claims -/

/-- C1 counterexample: starting from an empty `dtp_data` table, calling
`add_data` with name "Elara" and description "A scout." and then again with
the same name and description "Born in the north." leaves TWO rows named
"Elara", and no row whose description is the concatenation
"A scout. Born in the north." — the handler is a plain INSERT, not an
upsert. -/
theorem add_data_not_upsert :
    (((add_data (add_data [] 1 "Elara" "A scout.").1 2 "Elara" "Born in the north.").1.filter
        (fun r => r.name == "Elara")).length = 2) ∧
    (¬ ∃ r ∈ (add_data (add_data [] 1 "Elara" "A scout.").1 2 "Elara" "Born in the north.").1,
        r.description = "A scout. Born in the north.") := by
  decide

/-- C1 (amended): calling `add_data` twice with the same name and
descriptions `d1` then `d2` appends two separate rows, each holding its own
description; the rows named `name` afterwards are exactly the previous ones
followed by the two new rows.  No concatenation of descriptions occurs. -/
theorem add_data_twice (db : List DtpRow) (id1 id2 : Nat) (name d1 d2 : String) :
    ((add_data (add_data db id1 name d1).1 id2 name d2).1
      = db ++ [⟨id1, name, d1⟩, ⟨id2, name, d2⟩]) ∧
    ((add_data (add_data db id1 name d1).1 id2 name d2).1.filter
        (fun r => r.name == name)
      = db.filter (fun r => r.name == name) ++ [⟨id1, name, d1⟩, ⟨id2, name, d2⟩]) := by
  constructor
  · simp [add_data]
  · simp [add_data, List.filter_append]

/-- C8: `delete_data` deletes unconditionally and always reports the
success message — even when no row with the given id exists, in which case
it is a no-op; the remaining rows are exactly those whose id differs from
the given id. -/
theorem delete_data_spec (db : List DtpRow) (data_id : Nat) :
    ((delete_data db data_id).2
      = "✅ 데이터 삭제 완료! (id=" ++ toString data_id ++ ")") ∧
    (∀ r : DtpRow, r ∈ (delete_data db data_id).1 ↔ r ∈ db ∧ r.id ≠ data_id) ∧
    ((∀ r ∈ db, r.id ≠ data_id) → (delete_data db data_id).1 = db) := by
  refine ⟨rfl, ?_, ?_⟩
  · intro r
    simp [delete_data]
  · intro h
    simp only [delete_data]
    exact List.filter_eq_self.mpr (fun r hr => by simpa using h r hr)

/-- Witness for C8: deleting id 5 from a table without id 5 is a reported
success and a no-op. -/
theorem delete_data_spec_witness :
    ((delete_data [⟨1, "a", "x"⟩] 5).2 = "✅ 데이터 삭제 완료! (id=" ++ toString 5 ++ ")") ∧
    (delete_data [⟨1, "a", "x"⟩] 5).1 = [⟨1, "a", "x"⟩] :=
  ⟨(delete_data_spec [⟨1, "a", "x"⟩] 5).1,
   (delete_data_spec [⟨1, "a", "x"⟩] 5).2.2 (by decide)⟩

/-- C9: `secure_filename` returns a string all of whose characters are in
the allow-list `[A-Za-z0-9_.-]`; in particular no path separator `/`
remains; and it is idempotent. -/
theorem secure_filename_spec (s : String) :
    (∀ c ∈ (secure_filename s).data, isAllowedChar c = true) ∧
    ('/' ∉ (secure_filename s).data) ∧
    (secure_filename (secure_filename s) = secure_filename s) := by
  refine ⟨?_, ?_, ?_⟩
  · intro c hc
    exact (List.mem_filter.mp hc).2
  · intro hc
    have := (List.mem_filter.mp hc).2
    simp [isAllowedChar] at this
  · simp [secure_filename, List.filter_filter]

/-- Witness for C9 at the concrete input "a/b c.txt". -/
theorem secure_filename_spec_witness :
    ('/' ∉ (secure_filename "a/b c.txt").data) ∧
    (secure_filename (secure_filename "a/b c.txt") = secure_filename "a/b c.txt") :=
  ⟨(secure_filename_spec "a/b c.txt").2.1, (secure_filename_spec "a/b c.txt").2.2⟩

/-! ## String and path lemmas -/

theorem string_mk_data (s : String) : String.mk s.data = s := rfl

theorem string_data_append (a b : String) : (a ++ b).data = a.data ++ b.data := rfl

theorem string_append_empty (s : String) : s ++ "" = s := by
  have h : s ++ "" = String.mk (s.data ++ []) := rfl
  rw [h, List.append_nil]

theorem string_append_left_cancel {a b c : String} (h : a ++ b = a ++ c) : b = c := by
  have hd : a.data ++ b.data = a.data ++ c.data := by
    simpa [string_data_append] using congrArg String.data h
  exact congrArg String.mk (List.append_cancel_left hd)

theorem string_length_append (a b : String) :
    (a ++ b).length = a.length + b.length := by
  have h : (a ++ b).length = (a.data ++ b.data).length := rfl
  rw [h, List.length_append]
  rfl

theorem secure_filename_eq_self {s : String}
    (h : ∀ c ∈ s.data, isAllowedChar c = true) : secure_filename s = s := by
  unfold secure_filename
  rw [List.filter_eq_self.mpr h]

theorem clean_no_slash {s : String} (h : ∀ c ∈ s.data, isAllowedChar c = true) :
    ∀ c ∈ s.data, (c == '/') = false := by
  intro c hc
  cases hbeq : (c == '/') with
  | false => rfl
  | true =>
    have hc' : c = '/' := by simpa using hbeq
    subst hc'
    exact absurd (h _ hc) (by decide)

theorem isAbsolute_eq_head (x : String) :
    isAbsolute x = (x.data.head? == some '/') := by
  unfold isAbsolute
  cases hx : x.data with
  | nil => rfl
  | cons c rest => rfl

theorem isAbsolute_eq_false {s : String} (h : ∀ c ∈ s.data, (c == '/') = false) :
    isAbsolute s = false := by
  rw [isAbsolute_eq_head]
  cases hd : s.data with
  | nil => rfl
  | cons c rest =>
    have hc := h c (by rw [hd]; exact List.mem_cons_self _ _)
    simpa using hc

theorem isAbsolute_append_left (a b : String) (h : a.data ≠ []) :
    isAbsolute (a ++ b) = isAbsolute a := by
  rw [isAbsolute_eq_head, isAbsolute_eq_head, string_data_append]
  cases hd : a.data with
  | nil => exact absurd hd h
  | cons c rest => rfl

theorem basenameAux_append (l m : List Char) (acc : List Char) :
    basenameAux (l ++ m) acc = basenameAux m (basenameAux l acc) := by
  induction l generalizing acc with
  | nil => rfl
  | cons c rest ih =>
    simp only [List.cons_append, basenameAux]
    by_cases hc : (c == '/') = true
    · rw [if_pos hc, if_pos hc]
      exact ih []
    · rw [if_neg hc, if_neg hc]
      exact ih (acc ++ [c])

theorem basenameAux_no_slash (l : List Char) (acc : List Char)
    (h : ∀ c ∈ l, (c == '/') = false) : basenameAux l acc = acc ++ l := by
  induction l generalizing acc with
  | nil => simp [basenameAux]
  | cons c rest ih =>
    have hc := h c (List.mem_cons_self _ _)
    simp only [basenameAux, hc, Bool.false_eq_true, if_false]
    rw [ih _ (fun x hx => h x (List.mem_cons_of_mem _ hx))]
    simp

theorem basename_join_clean (s : String) (h : ∀ c ∈ s.data, (c == '/') = false) :
    basename (joinPath UPLOAD_DIR s) = s := by
  unfold joinPath
  rw [if_neg (by simp [isAbsolute_eq_false h])]
  unfold basename
  have hup : UPLOAD_DIR ++ "/" = "uploads/" := rfl
  rw [hup, string_data_append, basenameAux_append]
  have hinner : basenameAux ("uploads/".data) [] = [] := rfl
  rw [hinner, basenameAux_no_slash s.data [] h, List.nil_append, string_mk_data]

/-! ## Lemmas about `splitext` and the timestamp suffix -/

theorem splitextIdx_pos {p : String} {d : Nat} (h : splitextIdx p = some d) :
    1 ≤ d ∧ p.data ≠ [] := by
  simp only [splitextIdx] at h
  split at h
  case isTrue hcond =>
    rw [Bool.and_eq_true] at hcond
    obtain ⟨-, hany⟩ := hcond
    rw [List.any_eq_true] at hany
    obtain ⟨i, hi, hcondi⟩ := hany
    rw [Bool.and_eq_true, Bool.and_eq_true] at hcondi
    obtain ⟨⟨-, hdot⟩, -⟩ := hcondi
    have hdot' : (i : Int) < rfindChar p.data '.' := of_decide_eq_true hdot
    injection h with h
    constructor
    · omega
    · have hlen : i < p.data.length := List.mem_range.mp hi
      intro hnil
      rw [hnil] at hlen
      simp at hlen
  case isFalse => cases h

theorem splitext_append (p : String) : (splitext p).1 ++ (splitext p).2 = p := by
  unfold splitext
  cases h : splitextIdx p with
  | none => exact string_append_empty p
  | some d =>
    have hmk : String.mk (p.data.take d) ++ String.mk (p.data.drop d)
        = String.mk (p.data.take d ++ p.data.drop d) := rfl
    rw [hmk, List.take_append_drop, string_mk_data]

theorem splitext_mem_fst (p : String) :
    ∀ c ∈ (splitext p).1.data, c ∈ p.data := by
  unfold splitext
  cases h : splitextIdx p with
  | none => exact fun c hc => hc
  | some d => exact fun c hc => List.mem_of_mem_take hc

theorem splitext_mem_snd (p : String) :
    ∀ c ∈ (splitext p).2.data, c ∈ p.data := by
  unfold splitext
  cases h : splitextIdx p with
  | none => intro c hc; cases hc
  | some d => exact fun c hc => List.mem_of_mem_drop hc

theorem splitext_cases (p : String) :
    ((splitext p).1 = p ∧ (splitext p).2 = "") ∨
      ((splitext p).1.data.head? = p.data.head? ∧ (splitext p).1.data ≠ []) := by
  cases h : splitextIdx p with
  | none => left; simp [splitext, h]
  | some d =>
    right
    obtain ⟨hd1, hnil⟩ := splitextIdx_pos h
    simp only [splitext, h]
    cases hd : p.data with
    | nil => exact absurd hd hnil
    | cons c rest =>
      obtain ⟨k, rfl⟩ : ∃ k, d = k + 1 := ⟨d - 1, by omega⟩
      constructor
      · rw [List.take_succ_cons]
        rfl
      · rw [List.take_succ_cons]
        simp

theorem digitChar_allowed {n : Nat} (h : n < 10) :
    isAllowedChar (Nat.digitChar n) = true := by
  interval_cases n <;> decide

theorem natReprAux_allowed (fuel : Nat) :
    ∀ (n : Nat) (acc : List Char), (∀ c ∈ acc, isAllowedChar c = true) →
      ∀ c ∈ natReprAux fuel n acc, isAllowedChar c = true := by
  induction fuel with
  | zero => exact fun n acc hacc c hc => hacc c hc
  | succ fuel ih =>
    intro n acc hacc c hc
    simp only [natReprAux] at hc
    by_cases hn : n < 10
    · rw [if_pos hn] at hc
      rcases List.mem_cons.mp hc with he | hm
      · rw [he]; exact digitChar_allowed hn
      · exact hacc c hm
    · rw [if_neg hn] at hc
      refine ih (n / 10) _ ?_ c hc
      intro c' hc'
      rcases List.mem_cons.mp hc' with he | hm
      · rw [he]; exact digitChar_allowed (Nat.mod_lt _ (by omega))
      · exact hacc c' hm

theorem natRepr_allowed (n : Nat) : ∀ c ∈ (natRepr n).data, isAllowedChar c = true :=
  natReprAux_allowed (n + 1) n [] (by simp)

theorem stored_name_clean {filename : String} (now : Nat)
    (h : ∀ c ∈ filename.data, isAllowedChar c = true) :
    ∀ c ∈ ((splitext filename).1 ++ "_" ++ natRepr now
        ++ (splitext filename).2).data, isAllowedChar c = true := by
  intro c hc
  rw [string_data_append, string_data_append, string_data_append] at hc
  simp only [List.mem_append] at hc
  rcases hc with ((hb | hu) | hn) | he
  · exact h c (splitext_mem_fst filename c hb)
  · have hu' : c = '_' := by simpa using hu
    rw [hu']; rfl
  · exact natRepr_allowed now c hn
  · exact h c (splitext_mem_snd filename c he)

theorem isAbsolute_stored (p : String) (now : Nat) :
    isAbsolute ((splitext p).1 ++ "_" ++ natRepr now ++ (splitext p).2)
      = isAbsolute p := by
  have hu : (((splitext p).1 ++ "_").data) ≠ [] := by
    rw [string_data_append]
    simp
  have h2 : ((((splitext p).1 ++ "_") ++ natRepr now).data) ≠ [] := by
    rw [string_data_append]
    intro hcon
    exact hu (List.append_eq_nil.mp hcon).1
  rw [isAbsolute_append_left _ _ h2, isAbsolute_append_left _ _ hu]
  rcases splitext_cases p with ⟨h1, -⟩ | ⟨hhead, hne⟩
  · rw [h1]
    rw [isAbsolute_eq_head, isAbsolute_eq_head, string_data_append]
    cases hd : p.data with
    | nil => rfl
    | cons c rest => rfl
  · rw [isAbsolute_append_left _ _ hne, isAbsolute_eq_head, isAbsolute_eq_head, hhead]

theorem joinPath_ne {x y : String} (hne : x ≠ y)
    (habs : isAbsolute x = isAbsolute y) :
    joinPath UPLOAD_DIR x ≠ joinPath UPLOAD_DIR y := by
  unfold joinPath
  cases hx : isAbsolute x with
  | true =>
    rw [hx] at habs
    rw [if_pos rfl, if_pos habs.symm]
    exact hne
  | false =>
    rw [hx] at habs
    rw [if_neg (by simp), if_neg (by simp [← habs])]
    intro h
    exact hne (string_append_left_cancel h)

theorem fsLookup_write_self (fs : FileSystem) (p : String) (c : FileContent) :
    fsLookup (fsWrite fs p c) p = some c := by
  simp [fsWrite, fsLookup]

theorem fsLookup_write_other (fs : FileSystem) (p q : String) (c : FileContent)
    (h : p ≠ q) : fsLookup (fsWrite fs p c) q = fsLookup fs q := by
  simp [fsWrite, fsLookup, h]

/-! ## Lemmas about the max-`created_at` scan -/

theorem laterRow_none (x : ConvRow) : laterRow none x = some x := rfl

theorem laterRow_some (b x : ConvRow) :
    laterRow (some b) x =
      if b.created_at < x.created_at then some x else some b := by
  by_cases hb : b.created_at < x.created_at <;> simp [laterRow, hb]

theorem laterRow_cases (acc : Option ConvRow) (x : ConvRow) :
    laterRow acc x = some x ∨
      (∃ b, acc = some b ∧ laterRow acc x = some b ∧
        x.created_at ≤ b.created_at) := by
  cases acc with
  | none => exact Or.inl rfl
  | some b =>
    by_cases hb : b.created_at < x.created_at
    · exact Or.inl (by simp [laterRow, hb])
    · exact Or.inr ⟨b, rfl, by simp [laterRow, hb], Nat.le_of_not_lt hb⟩

theorem foldl_laterRow_sound (l : List ConvRow) :
    ∀ (acc : Option ConvRow) (r : ConvRow), l.foldl laterRow acc = some r →
      (r ∈ l ∨ acc = some r) ∧
      (∀ r' ∈ l, r'.created_at ≤ r.created_at) ∧
      (∀ b, acc = some b → b.created_at ≤ r.created_at) := by
  induction l with
  | nil =>
    intro acc r h
    simp only [List.foldl_nil] at h
    refine ⟨Or.inr h, by simp, ?_⟩
    intro b hb
    rw [h] at hb
    cases hb
    exact Nat.le_refl _
  | cons x xs ih =>
    intro acc r h
    simp only [List.foldl_cons] at h
    obtain ⟨hmem, hmax, hacc⟩ := ih (laterRow acc x) r h
    rcases laterRow_cases acc x with hA | ⟨b, hb, hA, hxb⟩
    · have hx : x.created_at ≤ r.created_at := hacc x hA
      refine ⟨?_, ?_, ?_⟩
      · rcases hmem with hm | hm
        · exact Or.inl (List.mem_cons_of_mem _ hm)
        · rw [hA] at hm
          injection hm with hm
          exact Or.inl (hm ▸ List.mem_cons_self _ _)
      · intro r' hr'
        rcases List.mem_cons.mp hr' with he | hm
        · rw [he]; exact hx
        · exact hmax r' hm
      · intro b hbacc
        subst hbacc
        have hbx : b.created_at ≤ x.created_at := by
          by_cases hlt : b.created_at < x.created_at
          · exact Nat.le_of_lt hlt
          · rw [laterRow_some, if_neg hlt] at hA
            injection hA with hA
            rw [hA]
        exact Nat.le_trans hbx hx
    · have hbr : b.created_at ≤ r.created_at := hacc b hA
      refine ⟨?_, ?_, ?_⟩
      · rcases hmem with hm | hm
        · exact Or.inl (List.mem_cons_of_mem _ hm)
        · rw [hA] at hm
          cases hm
          exact Or.inr hb
      · intro r' hr'
        rcases List.mem_cons.mp hr' with he | hm
        · rw [he]; exact Nat.le_trans hxb hbr
        · exact hmax r' hm
      · intro b' hb'
        rw [hb] at hb'
        cases hb'
        exact hbr

/-- If every row of `l` is older than `r`, appending `r` makes it the row
the scan selects. -/
theorem foldl_laterRow_append_last (l : List ConvRow) (r : ConvRow)
    (h : ∀ r' ∈ l, r'.created_at < r.created_at) :
    (l ++ [r]).foldl laterRow none = some r := by
  rw [List.foldl_append]
  cases hA : l.foldl laterRow none with
  | none => rfl
  | some b =>
    have hb : b ∈ l := by
      rcases (foldl_laterRow_sound l none b hA).1 with hm | hm
      · exact hm
      · cases hm
    simp only [List.foldl_cons, List.foldl_nil, laterRow, h b hb, if_true]

/-- Soundness of the cache read: a returned answer belongs to a matching
row whose `created_at` is maximal among the matching rows. -/
theorem get_cached_conversation_sound (db : List ConvRow) (q a : String)
    (h : get_cached_conversation db q = some a) :
    ∃ r ∈ db, r.question = q ∧ r.answer = a ∧
      ∀ r' ∈ db, r'.question = q → r'.created_at ≤ r.created_at := by
  simp only [get_cached_conversation, Option.map_eq_some'] at h
  obtain ⟨r, hr, hans⟩ := h
  obtain ⟨hmem, hmax, -⟩ :=
    foldl_laterRow_sound (db.filter (fun r => r.question == q)) none r hr
  rcases hmem with hm | hm
  · have hq : r ∈ db ∧ r.question == q := by
      have := List.mem_filter.mp hm
      exact ⟨this.1, this.2⟩
    refine ⟨r, hq.1, by simpa using hq.2, hans, ?_⟩
    intro r' hr' hq'
    exact hmax r' (List.mem_filter.mpr ⟨hr', by simpa using hq'⟩)
  · cases hm

/-! ## Theorems for the chat claims -/

/-- C3 counterexample: the conversation table holds a row with exactly the
question "hi" (its cached answer is the empty string), yet `chat` invokes
the LLM, returns the fresh answer rather than the cached one, and inserts a
new row — because Python's `if cached_answer:` treats the empty string as
false. -/
theorem chat_ignores_empty_cached_answer :
    ((⟨"hi", "", 0⟩ : ConvRow) ∈ [(⟨"hi", "", 0⟩ : ConvRow)]) ∧
    (chat [⟨"hi", "", 0⟩] "hi" (fun _ => Except.ok "fresh") 1
      = ⟨"fresh", [⟨"hi", "", 0⟩, ⟨"hi", "fresh", 1⟩], true⟩) := by
  exact ⟨List.mem_cons_self _ _, rfl⟩

/-- C3 (amended): if the most recently created cached answer for the exact
question is a non-empty string, `chat` returns it and does not invoke the
LLM; otherwise — no matching row, or the most recent cached answer is the
empty string (falsy in Python) — it invokes the LLM, persists the
`(question, answer)` pair, and returns that answer. -/
theorem chat_cache_spec (db : List ConvRow) (q : String)
    (llm : String → Except String String) (now : Nat) :
    (∀ a, get_cached_conversation db q = some a → a ≠ "" →
      chat db q llm now = ⟨a, db, false⟩ ∧
      ∃ r ∈ db, r.question = q ∧ r.answer = a ∧
        ∀ r' ∈ db, r'.question = q → r'.created_at ≤ r.created_at) ∧
    ((get_cached_conversation db q = none ∨ get_cached_conversation db q = some "") →
      chat db q llm now =
        ⟨get_gpt_response llm q,
         save_conversation db q (get_gpt_response llm q) now, true⟩) := by
  constructor
  · intro a ha hne
    refine ⟨?_, get_cached_conversation_sound db q a ha⟩
    simp [chat, ha, hne]
  · intro h
    rcases h with h | h <;> simp [chat, h]

/-- Witness for C3: a non-empty cached answer is returned verbatim with no
LLM call. -/
theorem chat_cache_spec_witness :
    chat [⟨"q1", "a1", 0⟩] "q1" (fun _ => Except.ok "x") 5
      = ⟨"a1", [⟨"q1", "a1", 0⟩], false⟩ :=
  ((chat_cache_spec [⟨"q1", "a1", 0⟩] "q1" (fun _ => Except.ok "x") 5).1
    "a1" rfl (by decide)).1

/-- C5 counterexample: when the LLM call raises, `chat` does NOT propagate
a failure — it substitutes the fixed fallback string, returns it as a
normal response, and even persists it. -/
theorem chat_llm_failure_not_propagated :
    (get_gpt_response (fun _ => Except.error "boom") "hello" = gptErrorMessage) ∧
    (chat [] "hello" (fun _ => Except.error "boom") 0
      = ⟨gptErrorMessage, [⟨"hello", gptErrorMessage, 0⟩], true⟩) :=
  ⟨rfl, rfl⟩

/-- C5 (amended): every exception from the LLM chat-completion call is
caught inside `get_gpt_response` and replaced by the fixed error string,
which `chat` returns as a normal response (and persists) on a cache miss;
the failure never propagates to the caller. -/
theorem chat_llm_failure_fallback (db : List ConvRow) (q e : String)
    (llm : String → Except String String) (now : Nat)
    (hfail : llm q = Except.error e) :
    (get_gpt_response llm q = gptErrorMessage) ∧
    ((get_cached_conversation db q = none ∨ get_cached_conversation db q = some "") →
      chat db q llm now = ⟨gptErrorMessage, db ++ [⟨q, gptErrorMessage, now⟩], true⟩) := by
  have hg : get_gpt_response llm q = gptErrorMessage := by
    simp [get_gpt_response, hfail]
  refine ⟨hg, ?_⟩
  intro h
  rcases h with h | h <;> simp [chat, h, hg, save_conversation]

/-- Witness for C5: a failing LLM on an empty cache yields the fallback
string as a normal response. -/
theorem chat_llm_failure_fallback_witness :
    chat [] "hello" (fun _ => Except.error "down") 3
      = ⟨gptErrorMessage, [] ++ [⟨"hello", gptErrorMessage, 3⟩], true⟩ :=
  (chat_llm_failure_fallback [] "hello" "down" (fun _ => Except.error "down") 3 rfl).2
    (Or.inl rfl)

/-- C10: when the LLM call fails on a cache miss, `chat` returns the fixed
fallback string as a normal response and persists it; any subsequent `chat`
call with the same query then returns the cached fallback string without
invoking the LLM and leaves the table unchanged. -/
theorem chat_failure_poisons_cache (db : List ConvRow) (q e : String)
    (llm : String → Except String String) (now1 now2 : Nat)
    (hfail : llm q = Except.error e)
    (hmiss : get_cached_conversation db q = none ∨
      get_cached_conversation db q = some "")
    (hfresh : ∀ r ∈ db, r.question = q → r.created_at < now1) :
    (chat db q llm now1
      = ⟨gptErrorMessage, db ++ [⟨q, gptErrorMessage, now1⟩], true⟩) ∧
    (chat (db ++ [⟨q, gptErrorMessage, now1⟩]) q llm now2
      = ⟨gptErrorMessage, db ++ [⟨q, gptErrorMessage, now1⟩], false⟩) := by
  have hg : get_gpt_response llm q = gptErrorMessage := by
    simp [get_gpt_response, hfail]
  have h1 : chat db q llm now1
      = ⟨gptErrorMessage, db ++ [⟨q, gptErrorMessage, now1⟩], true⟩ := by
    rcases hmiss with h | h <;> simp [chat, h, hg, save_conversation]
  refine ⟨h1, ?_⟩
  have hfilter : (db ++ [(⟨q, gptErrorMessage, now1⟩ : ConvRow)]).filter
      (fun r => r.question == q)
      = db.filter (fun r => r.question == q) ++ [⟨q, gptErrorMessage, now1⟩] := by
    simp [List.filter_append]
  have hcached : get_cached_conversation (db ++ [⟨q, gptErrorMessage, now1⟩]) q
      = some gptErrorMessage := by
    have hlast : (db.filter (fun r => r.question == q)
        ++ [(⟨q, gptErrorMessage, now1⟩ : ConvRow)]).foldl laterRow none
        = some ⟨q, gptErrorMessage, now1⟩ := by
      apply foldl_laterRow_append_last
      intro r' hr'
      have hm := List.mem_filter.mp hr'
      exact hfresh r' hm.1 (by simpa using hm.2)
    simp only [get_cached_conversation, hfilter, hlast, Option.map_some']
  have hne : gptErrorMessage ≠ "" := by decide
  simp [chat, hcached, hne]

/-! ## Theorems for the file-storage claims -/

/-- C2 counterexample: `upload_file` stores the client filename verbatim
("a b.txt"), but `download_file` sanitises before looking up, so
downloading by the filename the upload returned yields 404, not the
uploaded bytes. -/
theorem upload_download_roundtrip_fails :
    ((upload_file [] "a b.txt" [104, 105] 99).2 = "a b.txt") ∧
    (download_file (upload_file [] "a b.txt" [104, 105] 99).1
        (upload_file [] "a b.txt" [104, 105] 99).2
      = Except.error 404) :=
  ⟨rfl, rfl⟩

/-- C2 (amended): when the filename consists only of allow-list characters
`[A-Za-z0-9_.-]` (so `secure_filename` leaves it unchanged), downloading by
the filename returned from the upload yields exactly the uploaded bytes —
in both the fresh-name and the name-collision (timestamp-suffix) cases. -/
theorem upload_download_roundtrip (fs : FileSystem) (filename : String)
    (content : FileContent) (now : Nat)
    (hclean : ∀ c ∈ filename.data, isAllowedChar c = true) :
    download_file (upload_file fs filename content now).1
        (upload_file fs filename content now).2
      = Except.ok content := by
  simp only [upload_file]
  by_cases hex : fsExists fs (joinPath UPLOAD_DIR filename) = true
  · rw [if_pos hex]
    have hn2clean := stored_name_clean now hclean
    have hns := clean_no_slash hn2clean
    rw [basename_join_clean _ hns]
    unfold download_file
    rw [secure_filename_eq_self hn2clean, fsLookup_write_self]
  · rw [if_neg hex]
    have hns := clean_no_slash hclean
    rw [basename_join_clean _ hns]
    unfold download_file
    rw [secure_filename_eq_self hclean, fsLookup_write_self]

/-- Witness for C2: uploading "notes.txt" with bytes [7] and downloading
by the returned filename gives back [7]. -/
theorem upload_download_roundtrip_witness :
    download_file (upload_file [] "notes.txt" [7] 5).1
        (upload_file [] "notes.txt" [7] 5).2
      = Except.ok [7] :=
  upload_download_roundtrip [] "notes.txt" [7] 5 (by decide)

/-- C6: when a file already exists under the joined path of the uploaded
filename, the upload stores the content under the distinct filename
`root_<timestamp>ext`, leaves the bytes under the pre-existing path
untouched, and returns the basename of the final stored path. -/
theorem upload_collision_spec (fs : FileSystem) (filename : String)
    (content : FileContent) (now : Nat)
    (hex : fsExists fs (joinPath UPLOAD_DIR filename) = true) :
    ((splitext filename).1 ++ "_" ++ natRepr now ++ (splitext filename).2
      ≠ filename) ∧
    ((upload_file fs filename content now).2
      = basename (joinPath UPLOAD_DIR
          ((splitext filename).1 ++ "_" ++ natRepr now ++ (splitext filename).2))) ∧
    (fsLookup (upload_file fs filename content now).1
        (joinPath UPLOAD_DIR
          ((splitext filename).1 ++ "_" ++ natRepr now ++ (splitext filename).2))
      = some content) ∧
    (fsLookup (upload_file fs filename content now).1
        (joinPath UPLOAD_DIR filename)
      = fsLookup fs (joinPath UPLOAD_DIR filename)) := by
  have hne : (splitext filename).1 ++ "_" ++ natRepr now ++ (splitext filename).2
      ≠ filename := by
    intro h
    have hlen := congrArg String.length h
    rw [string_length_append, string_length_append, string_length_append] at hlen
    have hj := congrArg String.length (splitext_append filename)
    rw [string_length_append] at hj
    have h1 : ("_" : String).length = 1 := rfl
    omega
  refine ⟨hne, ?_, ?_, ?_⟩
  · simp only [upload_file]
    rw [if_pos hex]
  · simp only [upload_file]
    rw [if_pos hex, fsLookup_write_self]
  · simp only [upload_file]
    rw [if_pos hex]
    exact fsLookup_write_other _ _ _ _
      (joinPath_ne hne (isAbsolute_stored filename now))

/-- Witness for C6: with "uploads/map.png" already present, uploading
"map.png" at time 42 stores under "map_42.png", preserves the old bytes,
and returns "map_42.png". -/
theorem upload_collision_spec_witness :
    ((splitext "map.png").1 ++ "_" ++ natRepr 42 ++ (splitext "map.png").2
      ≠ "map.png") ∧
    ((upload_file [("uploads/map.png", [1])] "map.png" [2] 42).2
      = basename (joinPath UPLOAD_DIR
          ((splitext "map.png").1 ++ "_" ++ natRepr 42 ++ (splitext "map.png").2))) ∧
    (fsLookup (upload_file [("uploads/map.png", [1])] "map.png" [2] 42).1
        (joinPath UPLOAD_DIR
          ((splitext "map.png").1 ++ "_" ++ natRepr 42 ++ (splitext "map.png").2))
      = some [2]) ∧
    (fsLookup (upload_file [("uploads/map.png", [1])] "map.png" [2] 42).1
        (joinPath UPLOAD_DIR "map.png")
      = fsLookup [("uploads/map.png", [1])] (joinPath UPLOAD_DIR "map.png")) :=
  upload_collision_spec [("uploads/map.png", [1])] "map.png" [2] 42 (by decide)

/-! ## Theorems for the auth claims -/

/-- C4: the auth dependency yields identity "anonymous" when no
Authorization header is present; rejects with 401 when a token is present
but fails to yield an identity (malformed header, wrong scheme, failed
decode, or missing `sub`); and yields the token's `sub` claim when decoding
succeeds. -/
theorem optional_verify_token_spec (decode : String → Option JwtPayload) :
    (optional_verify_token decode none = Except.ok "anonymous") ∧
    (∀ a, a ≠ "" → decodeFailure decode a →
      optional_verify_token decode (some a) = Except.error 401) ∧
    (∀ a s t p u, splitWs a = [s, t] → lowerAscii s = "bearer" →
      decode t = some p → p.sub = some u →
      optional_verify_token decode (some a) = Except.ok u) := by
  refine ⟨rfl, ?_, ?_⟩
  · intro a hne hfail
    simp only [optional_verify_token, if_neg hne]
    rcases hfail with hmal | ⟨s, t, hsp, hrest⟩
    · cases hsp : splitWs a with
      | nil => rfl
      | cons s rest =>
        cases rest with
        | nil => rfl
        | cons t rest2 =>
          cases rest2 with
          | nil => exact absurd hsp (hmal s t)
          | cons u rest3 => rfl
    · by_cases hs' : lowerAscii s ≠ "bearer"
      · simp only [hsp, if_pos hs']
      · rcases hrest with hs | hd | hd
        · exact absurd hs hs'
        · simp only [hsp, if_neg hs', hd]
        · simp only [hsp, if_neg hs', hd]
  · intro a s t p u hsp hs hd hsub
    have hne : a ≠ "" := by
      intro he
      rw [he] at hsp
      simp [splitWs, splitWsAux] at hsp
    have hs' : ¬ (lowerAscii s ≠ "bearer") := fun hcon => hcon hs
    simp only [optional_verify_token, if_neg hne, hsp, if_neg hs', hd, hsub]

/-- Witness for C4: a concrete decoder accepting only the token "good"
with subject "johndoe"; no header → anonymous, a bad token → 401, the good
token → "johndoe". -/
theorem optional_verify_token_spec_witness :
    (optional_verify_token
        (fun t => if t = "good" then some ⟨some "johndoe"⟩ else none) none
      = Except.ok "anonymous") ∧
    (optional_verify_token
        (fun t => if t = "good" then some ⟨some "johndoe"⟩ else none)
        (some "Bearer bad")
      = Except.error 401) ∧
    (optional_verify_token
        (fun t => if t = "good" then some ⟨some "johndoe"⟩ else none)
        (some "Bearer good")
      = Except.ok "johndoe") :=
  ⟨(optional_verify_token_spec _).1,
   (optional_verify_token_spec _).2.1 "Bearer bad" (by decide)
     (Or.inr ⟨"Bearer", "bad", by decide, Or.inr (Or.inl (by decide))⟩),
   (optional_verify_token_spec _).2.2 "Bearer good" "Bearer" "good"
     ⟨some "johndoe"⟩ "johndoe" (by decide) (by decide) (by decide) rfl⟩

/-- C7: login returns a token carrying `sub = username` and
`exp = now + 3600` (one hour from issuance) together with token type
"bearer" exactly when the pair is in the in-memory user table, and rejects
with 401 otherwise. -/
theorem login_for_access_token_spec (username password : String) (now : Nat) :
    (fake_users_db.lookup username = some password ↔
      login_for_access_token username password now
        = Except.ok (⟨username, now + 3600⟩, "bearer")) ∧
    (fake_users_db.lookup username ≠ some password →
      login_for_access_token username password now = Except.error 401) := by
  cases h : fake_users_db.lookup username with
  | none =>
    refine ⟨⟨fun hc => ?_, fun hok => ?_⟩, fun _ => ?_⟩
    · cases hc
    · exfalso
      simp [login_for_access_token, h] at hok
    · simp [login_for_access_token, h]
  | some pw =>
    by_cases hpw : pw = password
    · subst hpw
      refine ⟨⟨fun _ => ?_, fun _ => rfl⟩, fun hne => absurd rfl hne⟩
      simp [login_for_access_token, h, create_access_token]
    · refine ⟨⟨fun hc => ?_, fun hok => ?_⟩, fun _ => ?_⟩
      · injection hc with hc
        exact absurd hc hpw
      · exfalso
        simp [login_for_access_token, h, hpw] at hok
      · simp [login_for_access_token, h, hpw]

/-- Witness for C7: the pair ("johndoe", "secret") is accepted with a
one-hour token; a wrong password is rejected with 401. -/
theorem login_for_access_token_spec_witness :
    (login_for_access_token "johndoe" "secret" 0
      = Except.ok (⟨"johndoe", 0 + 3600⟩, "bearer")) ∧
    (login_for_access_token "johndoe" "wrong" 1 = Except.error 401) :=
  ⟨(login_for_access_token_spec "johndoe" "secret" 0).1.mp (by decide),
   (login_for_access_token_spec "johndoe" "wrong" 1).2 (by decide)⟩

/-- Witness for C10: on an empty cache with a failing LLM, the first call
stores and returns the fallback string, and a second call returns it from
the cache. -/
theorem chat_failure_poisons_cache_witness :
    (chat [] "hi" (fun _ => Except.error "x") 0
      = ⟨gptErrorMessage, [] ++ [⟨"hi", gptErrorMessage, 0⟩], true⟩) ∧
    (chat ([] ++ [⟨"hi", gptErrorMessage, 0⟩]) "hi" (fun _ => Except.error "x") 1
      = ⟨gptErrorMessage, [] ++ [⟨"hi", gptErrorMessage, 0⟩], false⟩) :=
  chat_failure_poisons_cache [] "hi" "x" (fun _ => Except.error "x") 0 1 rfl
    (Or.inl rfl) (by simp)

end DisToPia
